import Mathlib

/-!
# Verification of the rex voice assistant core

A shallow embedding, in Lean 4, of the parts of the `rex` repository that the
checked claims are about:

* the reminder store (`src/agent/tools/reminder.py`): SQLite rows are modelled
  as a Lean list of `Reminder.Row` records; each SQL statement is translated
  to the corresponding pure list operation.  Timestamps (stored as ISO-8601
  text whose lexicographic order agrees with chronological order for
  `datetime.isoformat()` output) are modelled by natural numbers with their
  usual order.
* the timer manager (`src/agent/tools/timer.py`), including a faithful model
  of the backtracking regular-expression searches inside `parse_duration`.
* the reminder scheduler (`src/rex/reminder_scheduler.py`).
* the conversation state handlers (`src/rex/states/*.py`) together with the
  shared phrase matching of `src/rex/states/phrases.py`.
* the VAD chunking processor (`src/wake_word/wake_word_listener.py`).
* the audio output manager (`src/audio/manager.py`).

External collaborators (the VAD neural model, the transcriber, the reasoning
backend, the hardware audio callback) are modelled as explicit function
parameters so that each handler stays a pure function of its inputs.
Python `float` arithmetic is modelled exactly by `ℚ`.
-/

namespace Rex

/-! ## Reminder store (`src/agent/tools/reminder.py`)

The SQLite table `reminders(id, message, due_datetime, created_at, status)`
becomes a list of rows.  `status` is the `ReminderStatus` enum. -/

inductive ReminderStatus where
  | pending
  | delivered
  | cleared
deriving DecidableEq, Repr

namespace Reminder

/-- One row of the `reminders` table.  `due` and `createdAt` stand for the
ISO-8601 timestamp strings; since `datetime.isoformat()` output compares
lexicographically exactly as it compares chronologically, they are modelled
as natural numbers. -/
structure Row where
  id : ℕ
  message : String
  due : ℕ
  createdAt : ℕ
  status : ReminderStatus
deriving DecidableEq, Repr

/-- The reminder database: the rows of the table, in insertion order. -/
abbrev DB := List Row

/-- `SELECT * FROM reminders WHERE id = ? ... fetchone()`: the first row with
the given id (ids are a primary key, so at most one exists). -/
def findRow (db : DB) (rid : ℕ) : Option Row :=
  db.find? (fun r => r.id = rid)

/-- `ReminderManager.get_next_pending_time`: the SQL aggregate
`SELECT MIN(due_datetime) FROM reminders WHERE status = 'pending'`,
computed row by row exactly as the aggregate scans the filtered rows. -/
def get_next_pending_time (db : DB) : Option ℕ :=
  match db with
  | [] => none
  | r :: rest =>
    let m := get_next_pending_time rest
    if r.status = ReminderStatus.pending then
      match m with
      | none => some r.due
      | some t => some (min r.due t)
    else m

/-- The row update performed by `UPDATE reminders SET ... WHERE id = ?` for
`ReminderManager.update_reminder`: each optional field that is present
overwrites the stored one. -/
def applyUpdate (msg : Option String) (due : Option ℕ) (status : Option ReminderStatus)
    (r : Row) : Row :=
  { r with
    message := msg.getD r.message
    due := due.getD r.due
    status := status.getD r.status }

/-- The executed-update path of `ReminderManager.update_reminder` (taken
whenever the `updates` list is non-empty): run the SQL `UPDATE`, fetch the
row back (`None` when the id does not exist), and report whether a
`ReminderScheduleChanged` event was emitted (it is iff `due_datetime` was
updated). -/
def update_reminder_run (db : DB) (rid : ℕ) (msg : Option String) (due : Option ℕ)
    (status : Option ReminderStatus) : DB × Option Row × Bool :=
  let db' := db.map (fun r => if r.id = rid then applyUpdate msg due status r else r)
  (db', findRow db' rid, due.isSome)

/-- `ReminderManager.update_reminder`.  The whole body runs inside
`with self._db_lock:`, and `_db_lock` is a plain non-reentrant
`threading.Lock`.  When every optional argument is absent the `if not
updates:` branch calls `self.get_reminder(reminder_id)` while that lock is
still held; `get_reminder` opens with `with self._db_lock:` and so blocks
forever on the same thread — the call never returns, modelled as `none`.
With at least one argument present the update executes and the call returns
normally (`some`). -/
def update_reminder (db : DB) (rid : ℕ) (msg : Option String) (due : Option ℕ)
    (status : Option ReminderStatus) : Option (DB × Option Row × Bool) :=
  if msg = none ∧ due = none ∧ status = none then
    none
  else
    some (update_reminder_run db rid msg due status)

/-- `ReminderManager.clear_reminder`: `update_reminder(id, status=CLEARED)`
— a one-element update set, so the executed-update path runs and returns. -/
def clear_reminder (db : DB) (rid : ℕ) : DB × Option Row × Bool :=
  update_reminder_run db rid none none (some ReminderStatus.cleared)

/-- `ReminderManager.snooze_reminder`: `update_reminder(id, due_datetime=t,
status=PENDING)` — a two-element update set, executed-update path. -/
def snooze_reminder (db : DB) (rid : ℕ) (newDue : ℕ) : DB × Option Row × Bool :=
  update_reminder_run db rid none (some newDue) (some ReminderStatus.pending)

/-- The id SQLite's `AUTOINCREMENT` hands to the next inserted row: one more
than the largest id used so far. -/
def nextId (db : DB) : ℕ :=
  (db.map Row.id).foldr max 0 + 1

/-- `ReminderManager.create_reminder`: `INSERT INTO reminders ...` followed by
a `ReminderScheduleChanged` emission.  Returns the new table and the created
row. -/
def create_reminder (db : DB) (message : String) (due : ℕ) (now : ℕ) : DB × Row :=
  let r : Row :=
    { id := nextId db, message := message, due := due, createdAt := now
      status := ReminderStatus.pending }
  (db ++ [r], r)

/-- The error text of `_create_reminder_impl` for an unparseable date/time
(`strftime` output is modelled by the numeric rendering of the timestamp). -/
def couldNotUnderstandMsg (datetimeStr : String) : String :=
  "Could not understand the date/time '" ++ datetimeStr ++ "'. " ++
    "Try formats like 'tomorrow at 3pm', 'next Tuesday at noon', or 'January 15th at 10am'."

/-- The error text of `_create_reminder_impl` for a past due time. -/
def pastTimeMsg (due : ℕ) : String :=
  "The specified time (" ++ toString due ++ ") is in the past. " ++
    "Please specify a future date and time."

/-- The success text of `_create_reminder_impl`. -/
def createdMsg (message : String) (due : ℕ) : String :=
  "Reminder created: '" ++ message ++ "' for " ++ toString due ++ "."

/-- `_create_reminder_impl`.  `parse_datetime` calls into `dateutil`, an
external collaborator, so its result is passed in as `parsed` (`none` when
parsing failed).  Returns the table after the call and the result string. -/
def create_reminder_impl (db : DB) (now : ℕ) (message : String)
    (datetimeStr : String) (parsed : Option ℕ) : DB × String :=
  match parsed with
  | none => (db, couldNotUnderstandMsg datetimeStr)
  | some due =>
    if due < now then
      (db, pastTimeMsg due)
    else
      let (db', r) := create_reminder db message due now
      (db', createdMsg message r.due)

end Reminder

end Rex

namespace Rex

/-! ### Theorems about the reminder store -/

/-- Auxiliary: the due times of the pending rows. -/
def Reminder.pendingDues (db : Reminder.DB) : List ℕ :=
  (db.filter (fun r => r.status = ReminderStatus.pending)).map Reminder.Row.due

theorem Reminder.get_next_pending_time_eq_none (db : Reminder.DB) :
    Reminder.get_next_pending_time db = none ↔
      ∀ r ∈ db, r.status ≠ ReminderStatus.pending := by
  induction db with
  | nil => simp [Reminder.get_next_pending_time]
  | cons r rest ih =>
    by_cases h : r.status = ReminderStatus.pending
    · simp only [Reminder.get_next_pending_time, h, if_pos rfl]
      cases hm : Reminder.get_next_pending_time rest <;>
        simp [List.mem_cons, h]
    · simp only [Reminder.get_next_pending_time, if_neg h]
      rw [ih]
      constructor
      · intro hall s hs
        rcases List.mem_cons.mp hs with rfl | hs'
        · exact h
        · exact hall s hs'
      · intro hall s hs
        exact hall s (List.mem_cons_of_mem _ hs)

theorem Reminder.get_next_pending_time_is_min (db : Reminder.DB) (t : ℕ)
    (h : Reminder.get_next_pending_time db = some t) :
    (∃ r ∈ db, r.status = ReminderStatus.pending ∧ r.due = t) ∧
      ∀ r ∈ db, r.status = ReminderStatus.pending → t ≤ r.due := by
  induction db generalizing t with
  | nil => simp [Reminder.get_next_pending_time] at h
  | cons r rest ih =>
    by_cases hp : r.status = ReminderStatus.pending
    · simp only [Reminder.get_next_pending_time, if_pos hp] at h
      cases hm : Reminder.get_next_pending_time rest with
      | none =>
        rw [hm] at h
        simp only [Option.some.injEq] at h
        subst h
        refine ⟨⟨r, List.mem_cons_self .., hp, rfl⟩, ?_⟩
        intro s hs hsp
        rcases List.mem_cons.mp hs with rfl | hs'
        · exact le_refl _
        · exact absurd ((Reminder.get_next_pending_time_eq_none rest).mp hm s hs' hsp) (by simp)
      | some u =>
        rw [hm] at h
        simp only [Option.some.injEq] at h
        obtain ⟨⟨s, hs, hsp, hsd⟩, hmin⟩ := ih u hm
        rcases min_cases r.due u with ⟨hmin', hle⟩ | ⟨hmin', hlt⟩
        · refine ⟨⟨r, List.mem_cons_self .., hp, by omega⟩, ?_⟩
          intro s' hs' hsp'
          rcases List.mem_cons.mp hs' with rfl | hs''
          · omega
          · have := hmin s' hs'' hsp'
            omega
        · refine ⟨⟨s, List.mem_cons_of_mem _ hs, hsp, by omega⟩, ?_⟩
          intro s' hs' hsp'
          rcases List.mem_cons.mp hs' with rfl | hs''
          · omega
          · have := hmin s' hs'' hsp'
            omega
    · simp only [Reminder.get_next_pending_time, if_neg hp] at h
      obtain ⟨⟨s, hs, hsp, hsd⟩, hmin⟩ := ih t h
      refine ⟨⟨s, List.mem_cons_of_mem _ hs, hsp, hsd⟩, ?_⟩
      intro s' hs' hsp'
      rcases List.mem_cons.mp hs' with rfl | hs''
      · exact absurd hsp' hp
      · exact hmin s' hs'' hsp'

theorem Reminder.get_next_pending_time_ignores (db : Reminder.DB) (r : Reminder.Row)
    (h : r.status ≠ ReminderStatus.pending) :
    Reminder.get_next_pending_time (r :: db) = Reminder.get_next_pending_time db := by
  simp [Reminder.get_next_pending_time, h]

/-- C4: `get_next_pending_time()` returns the minimum due time among rows with
status `pending`, ignores rows whose status is `cleared` or `delivered`, and
returns `none` exactly when no pending rows exist. -/
theorem C4_get_next_pending_time (db : Reminder.DB) :
    (Reminder.get_next_pending_time db = none ↔
      ∀ r ∈ db, r.status ≠ ReminderStatus.pending) ∧
    (∀ t, Reminder.get_next_pending_time db = some t →
      (∃ r ∈ db, r.status = ReminderStatus.pending ∧ r.due = t) ∧
        ∀ r ∈ db, r.status = ReminderStatus.pending → t ≤ r.due) ∧
    (∀ r : Reminder.Row, r.status ≠ ReminderStatus.pending →
      Reminder.get_next_pending_time (r :: db) = Reminder.get_next_pending_time db) :=
  ⟨Reminder.get_next_pending_time_eq_none db,
   fun t h => Reminder.get_next_pending_time_is_min db t h,
   fun r h => Reminder.get_next_pending_time_ignores db r h⟩

/-- Witness for C4 on a concrete database: a cleared early row is ignored and
the minimum pending due time is returned. -/
theorem C4_get_next_pending_time_witness :
    Reminder.get_next_pending_time
        [⟨1, "a", 5, 0, ReminderStatus.cleared⟩,
         ⟨2, "b", 30, 0, ReminderStatus.pending⟩,
         ⟨3, "c", 20, 0, ReminderStatus.pending⟩] = some 20 ∧
      (∃ r ∈ ([⟨1, "a", 5, 0, ReminderStatus.cleared⟩,
         ⟨2, "b", 30, 0, ReminderStatus.pending⟩,
         ⟨3, "c", 20, 0, ReminderStatus.pending⟩] : Reminder.DB),
          r.status = ReminderStatus.pending ∧ r.due = 20) :=
  ⟨by decide,
   ((C4_get_next_pending_time _).2.1 20 (by decide)).1⟩

/-- C7: creating a reminder whose parsed due time is earlier than `now`
returns the past-time explanation and leaves the table unchanged. -/
theorem C7_create_reminder_past (db : Reminder.DB) (now : ℕ) (message datetimeStr : String)
    (t : ℕ) (h : t < now) :
    Reminder.create_reminder_impl db now message datetimeStr (some t) =
      (db, Reminder.pastTimeMsg t) := by
  simp [Reminder.create_reminder_impl, h]

/-- Witness for C7: a due time of 10 with `now = 100` is rejected and the
(empty) table stays empty. -/
theorem C7_create_reminder_past_witness :
    Reminder.create_reminder_impl [] 100 "call mom" "yesterday at 3pm" (some 10) =
      ([], Reminder.pastTimeMsg 10) :=
  C7_create_reminder_past [] 100 "call mom" "yesterday at 3pm" 10 (by decide)

/-- The two faces of `update_reminder` agree whenever at least one field is
present: the call returns normally with the executed update's result. -/
theorem Reminder.update_reminder_eq_run (db : Reminder.DB) (rid : ℕ)
    (msg : Option String) (due : Option ℕ) (status : Option ReminderStatus)
    (h : ¬(msg = none ∧ due = none ∧ status = none)) :
    Reminder.update_reminder db rid msg due status =
      some (Reminder.update_reminder_run db rid msg due status) := by
  rw [Reminder.update_reminder, if_neg h]

/-- C10 (code_bug): the claim says `update_reminder` with message, due time
and status all absent performs no write, emits no event, and returns the
stored reminder — an identity operation on the store.  In the code the
`if not updates:` branch calls `self.get_reminder(reminder_id)` while
`update_reminder` still holds the non-reentrant `_db_lock`, and
`get_reminder` re-acquires that same lock, so the call blocks forever
instead of returning.  In the model a call that never returns is `none`:
on every database state the all-absent call has no result, also at the
concrete failing input (a one-row table holding id 7). -/
theorem C10_update_reminder_deadlock :
    (∀ (db : Reminder.DB) (rid : ℕ),
      Reminder.update_reminder db rid none none none = none) ∧
    Reminder.update_reminder [⟨7, "x", 3, 0, ReminderStatus.pending⟩] 7
      none none none = none :=
  ⟨fun _ _ => rfl, rfl⟩

/-! ## Reminder scheduler (`src/rex/reminder_scheduler.py`)

`ReminderScheduler` keeps `_pending_delivery : ReminderDelivery | None`
(together with the reminder database it queries).  All mutations of
`_pending_delivery` happen under `_delivery_lock`; each locked critical
section appears here as one state transition. -/

namespace Sched

/-- The scheduler state visible to the claims: the reminder table and the
field `_pending_delivery` (a `ReminderDelivery` wraps one `Reminder`). -/
structure State where
  db : Reminder.DB
  pendingDelivery : Option Reminder.Row
deriving Repr

/-- The `WHERE status = 'pending' AND due_datetime <= now` filter used by
`ReminderManager.get_due_reminders`. -/
def dueFilter (db : Reminder.DB) (now : ℕ) : List Reminder.Row :=
  db.filter (fun r => decide (r.status = ReminderStatus.pending ∧ r.due ≤ now))

/-- `ReminderManager.get_due_reminders`: the due filter ordered by
`ORDER BY due_datetime`. -/
def get_due_reminders (db : Reminder.DB) (now : ℕ) : List Reminder.Row :=
  List.insertionSort (fun a b => a.due ≤ b.due) (dueFilter db now)

/-- `ReminderScheduler._check_due_reminders`: while a delivery is pending
nothing happens; otherwise the first due reminder (if any) becomes the
pending delivery via `_trigger_delivery`.  The database is only read. -/
def check_due (st : State) (now : ℕ) : State :=
  if st.pendingDelivery.isSome then st
  else
    match get_due_reminders st.db now with
    | [] => st
    | r :: _ => { st with pendingDelivery := some r }

/-- `ReminderScheduler.clear_pending_delivery`. -/
def clear_pending_delivery (st : State) : State :=
  { st with pendingDelivery := none }

/-- `ReminderScheduler.mark_delivered`: `clear_reminder` (status → cleared)
then `clear_pending_delivery`. -/
def mark_delivered (st : State) (rid : ℕ) : State :=
  clear_pending_delivery { st with db := (Reminder.clear_reminder st.db rid).1 }

/-- `ReminderScheduler.schedule_retry`: advance the due time by the retry
interval (persisted via `update_reminder`) then `clear_pending_delivery`. -/
def schedule_retry (st : State) (rid : ℕ) (now retryMinutes : ℕ) : State :=
  clear_pending_delivery
    { st with
      db := (Reminder.update_reminder_run st.db rid none (some (now + retryMinutes)) none).1 }

/-- `ReminderScheduler.snooze_reminder`: set a new due time (status back to
pending) then `clear_pending_delivery`. -/
def snooze_reminder (st : State) (rid : ℕ) (now snoozeMinutes : ℕ) : State :=
  clear_pending_delivery
    { st with db := (Reminder.snooze_reminder st.db rid (now + snoozeMinutes)).1 }

end Sched

/-! ### Theorems about the scheduler's single pending delivery -/

theorem Sched.check_due_suppressed (st : Sched.State) (now : ℕ)
    (h : st.pendingDelivery.isSome) : Sched.check_due st now = st := by
  simp [Sched.check_due, h]

theorem Sched.dueFilter_map_clear (now rid : ℕ) (l : Reminder.DB) :
    List.filter (fun r => decide (r.status = ReminderStatus.pending ∧ r.due ≤ now))
        (l.map (fun r =>
          if r.id = rid then Reminder.applyUpdate none none (some ReminderStatus.cleared) r
          else r)) =
      List.filter (fun r => decide (r.id ≠ rid))
        (List.filter (fun r => decide (r.status = ReminderStatus.pending ∧ r.due ≤ now)) l) := by
  induction l with
  | nil => rfl
  | cons r rest ih =>
    by_cases hid : r.id = rid
    · by_cases hdue : r.status = ReminderStatus.pending ∧ r.due ≤ now
      · simp only [List.map_cons, List.filter_cons, if_pos hid, Reminder.applyUpdate,
          Option.getD_none, Option.getD_some]
        rw [if_neg (by simp), if_pos (by simpa using hdue), List.filter_cons,
          if_neg (by simp [hid])]
        exact ih
      · simp only [List.map_cons, List.filter_cons, if_pos hid, Reminder.applyUpdate,
          Option.getD_none, Option.getD_some]
        rw [if_neg (by simp), if_neg (by simpa using hdue)]
        exact ih
    · by_cases hdue : r.status = ReminderStatus.pending ∧ r.due ≤ now
      · simp only [List.map_cons, List.filter_cons, if_neg hid]
        rw [if_pos (by simpa using hdue), if_pos (by simpa using hdue), List.filter_cons,
          if_pos (by simpa using hid)]
        rw [ih]
      · simp only [List.map_cons, List.filter_cons, if_neg hid]
        rw [if_neg (by simpa using hdue), if_neg (by simpa using hdue)]
        exact ih

theorem Sched.dueFilter_after_clear (db : Reminder.DB) (now rid : ℕ) :
    Sched.dueFilter (Reminder.clear_reminder db rid).1 now =
      (Sched.dueFilter db now).filter (fun r => decide (r.id ≠ rid)) := by
  have hform : (Reminder.clear_reminder db rid).1 =
      db.map (fun r =>
        if r.id = rid then Reminder.applyUpdate none none (some ReminderStatus.cleared) r
        else r) := by
    simp [Reminder.clear_reminder, Reminder.update_reminder_run]
  rw [Sched.dueFilter, hform, Sched.dueFilter_map_clear, Sched.dueFilter]

/-- C2: at most one reminder is pending delivery at a time.
Conjuncts: (a) while a delivery is outstanding, `_check_due_reminders`
changes nothing (no new delivery even if other reminders are due);
(b) `mark_delivered`, `schedule_retry` and `snooze_reminder` each clear the
pending delivery; (c) scenario — with exactly two due reminders and no
outstanding delivery, the due check surfaces only the first, leaves the
database untouched (the second stays due), keeps suppressing while the first
is outstanding, and surfaces the second once the first is resolved. -/
theorem C2_single_pending_delivery :
    (∀ (st : Sched.State) (now : ℕ), st.pendingDelivery.isSome →
      Sched.check_due st now = st) ∧
    (∀ (st : Sched.State) (rid now m : ℕ),
      (Sched.mark_delivered st rid).pendingDelivery = none ∧
      (Sched.schedule_retry st rid now m).pendingDelivery = none ∧
      (Sched.snooze_reminder st rid now m).pendingDelivery = none) ∧
    (∀ (db : Reminder.DB) (now : ℕ) (r₁ r₂ : Reminder.Row),
      Sched.dueFilter db now = [r₁, r₂] → r₁.due ≤ r₂.due → r₁.id ≠ r₂.id →
      let st₁ := Sched.check_due ⟨db, none⟩ now
      st₁.pendingDelivery = some r₁ ∧
      st₁.db = db ∧
      Sched.check_due st₁ now = st₁ ∧
      (Sched.check_due (Sched.mark_delivered st₁ r₁.id) now).pendingDelivery = some r₂) := by
  refine ⟨fun st now h => Sched.check_due_suppressed st now h, ?_, ?_⟩
  · intro st rid now m
    exact ⟨rfl, rfl, rfl⟩
  · intro db now r₁ r₂ hf hle hid
    have hsort : Sched.get_due_reminders db now = [r₁, r₂] := by
      simp [Sched.get_due_reminders, hf, List.insertionSort, List.orderedInsert, hle]
    have h₁ : Sched.check_due ⟨db, none⟩ now =
        ⟨db, some r₁⟩ := by
      simp [Sched.check_due, hsort]
    refine ⟨by rw [h₁], by rw [h₁], ?_, ?_⟩
    · rw [h₁]
      exact Sched.check_due_suppressed _ now (by simp)
    · rw [h₁]
      have hdb : Sched.mark_delivered ⟨db, some r₁⟩ r₁.id =
          ⟨(Reminder.clear_reminder db r₁.id).1, none⟩ := rfl
      rw [hdb]
      have hfilter : Sched.dueFilter (Reminder.clear_reminder db r₁.id).1 now = [r₂] := by
        rw [Sched.dueFilter_after_clear, hf]
        simp [List.filter, hid.symm]
      simp [Sched.check_due, Sched.get_due_reminders, hfilter, List.insertionSort]

/-- Witness for C2's quantified clauses at a concrete state: two reminders due
at once; only the first is surfaced, and the second only after resolution. -/
theorem C2_single_pending_delivery_witness :
    (Sched.check_due ⟨[⟨1, "a", 3, 0, ReminderStatus.pending⟩,
        ⟨2, "b", 4, 0, ReminderStatus.pending⟩], none⟩ 10).pendingDelivery =
      some ⟨1, "a", 3, 0, ReminderStatus.pending⟩ ∧
    (Sched.check_due
        (Sched.mark_delivered
          (Sched.check_due ⟨[⟨1, "a", 3, 0, ReminderStatus.pending⟩,
            ⟨2, "b", 4, 0, ReminderStatus.pending⟩], none⟩ 10) 1) 10).pendingDelivery =
      some ⟨2, "b", 4, 0, ReminderStatus.pending⟩ := by
  have h := C2_single_pending_delivery.2.2
    [⟨1, "a", 3, 0, ReminderStatus.pending⟩, ⟨2, "b", 4, 0, ReminderStatus.pending⟩] 10
    ⟨1, "a", 3, 0, ReminderStatus.pending⟩ ⟨2, "b", 4, 0, ReminderStatus.pending⟩
    (by decide) (by decide) (by decide)
  exact ⟨h.1, h.2.2.2⟩

/-! ## Timer manager (`src/agent/tools/timer.py`)

`TimerManager` keeps a dict of named timers, the name of the currently
ringing timer, and an alarm-sound playback thread.  Every mutation runs
under `_timers_lock`, so each method appears here as one state transition;
the side-effecting calls it makes in order (`thread.cancel()`,
`_stop_alarm()`, `thread.start()`) are recorded in an action trace so that
their relative order can be stated. -/

namespace Timer

inductive TState where
  | pending
  | ringing
deriving DecidableEq, Repr

/-- The `Timer` dataclass.  `hasThread` models `thread is not None`. -/
structure Rec where
  durationSeconds : ℚ
  startTime : ℚ
  state : TState
  hasThread : Bool
deriving DecidableEq, Repr

/-- The mutable state of `TimerManager`: `_timers` (a dict, modelled as an
association list with unique keys), `_current_ringing`, whether the alarm
sound thread is playing, and `_muted`. -/
structure TM where
  timers : List (String × Rec)
  currentRinging : Option String
  soundPlaying : Bool
  muted : Bool
deriving Repr

/-- Side-effecting calls made by `set_timer`, in program order. -/
inductive Act where
  | cancelThread (name : String)
  | stopAlarm
  | startThread (name : String)
deriving DecidableEq, Repr

/-- Python dict lookup `self._timers.get(name)` / `name in self._timers`:
the value at the first (unique) matching key. -/
def lookupTimer : List (String × Rec) → String → Option Rec
  | [], _ => none
  | (k, r) :: rest, n => if k = n then some r else lookupTimer rest n

/-- Python dict assignment `self._timers[name] = timer`: replace the entry
in place when the key exists, append otherwise. -/
def setEntry (ts : List (String × Rec)) (n : String) (v : Rec) : List (String × Rec) :=
  if ts.any (fun p => p.1 = n) then
    ts.map (fun p => if p.1 = n then (n, v) else p)
  else ts ++ [(n, v)]

/-- `int(seconds)` at the top of `_format_duration`; every duration reaching
it is nonnegative, where `int()` truncation agrees with the floor. -/
def pyIntOfRat (q : ℚ) : ℕ :=
  (⌊q⌋).toNat

/-- `TimerManager._format_duration`. -/
def format_duration (q : ℚ) : String :=
  let seconds := pyIntOfRat q
  if seconds < 60 then
    toString seconds ++ " second" ++ (if seconds ≠ 1 then "s" else "")
  else if seconds < 3600 then
    let minutes := seconds / 60
    let secs := seconds % 60
    let base := toString minutes ++ " minute" ++ (if minutes ≠ 1 then "s" else "")
    if secs > 0 then
      base ++ " " ++ toString secs ++ " second" ++ (if secs ≠ 1 then "s" else "")
    else base
  else
    let hours := seconds / 3600
    let minutes := (seconds % 3600) / 60
    let base := toString hours ++ " hour" ++ (if hours ≠ 1 then "s" else "")
    if minutes > 0 then
      base ++ " " ++ toString minutes ++ " minute" ++ (if minutes ≠ 1 then "s" else "")
    else base

/-- `TimerManager.set_timer`, the whole `with self._timers_lock:` block:
if a timer with this name exists its thread is cancelled and, if it was
ringing, `_stop_alarm()` is called (stopping the sound thread); then the
replacement timer is installed and its thread started.  `_current_ringing`
is not touched.  Returns the new state, the confirmation message, and the
trace of side-effecting calls in program order. -/
def set_timer (tm : TM) (name : String) (durationSeconds : ℚ) (now : ℚ) :
    TM × String × List Act :=
  let old := lookupTimer tm.timers name
  let cancelActs : List Act :=
    match old with
    | some o =>
      (if o.hasThread then [Act.cancelThread name] else []) ++
        (if o.state = TState.ringing then [Act.stopAlarm] else [])
    | none => []
  let sound' :=
    match old with
    | some o => if o.state = TState.ringing then false else tm.soundPlaying
    | none => tm.soundPlaying
  let newRec : Rec := ⟨durationSeconds, now, TState.pending, true⟩
  ({ tm with timers := setEntry tm.timers name newRec, soundPlaying := sound' },
   "Timer '" ++ name ++ "' set for " ++ format_duration durationSeconds,
   cancelActs ++ [Act.startThread name])

end Timer

/-! ### Theorems about timer replacement -/

theorem Timer.lookupTimer_map_set (n : String) (v : Timer.Rec)
    (ts : List (String × Timer.Rec)) :
    Timer.lookupTimer (ts.map (fun p => if p.1 = n then (n, v) else p)) n =
      if ts.any (fun p => p.1 = n) then some v else none := by
  induction ts with
  | nil => rfl
  | cons q rest ih =>
    obtain ⟨k, r⟩ := q
    simp only [List.map_cons]
    by_cases hq : k = n
    · rw [if_pos hq]
      simp [Timer.lookupTimer, hq]
    · rw [if_neg hq]
      simp only [Timer.lookupTimer, if_neg hq, ih, List.any_cons]
      exact if_congr (by simp [hq]) rfl rfl

theorem Timer.lookupTimer_append (ts us : List (String × Timer.Rec)) (n : String) :
    Timer.lookupTimer (ts ++ us) n =
      match Timer.lookupTimer ts n with
      | some r => some r
      | none => Timer.lookupTimer us n := by
  induction ts with
  | nil => rfl
  | cons q rest ih =>
    obtain ⟨k, r⟩ := q
    by_cases hq : k = n
    · simp [Timer.lookupTimer, hq]
    · simp only [List.cons_append, Timer.lookupTimer, if_neg hq]
      exact ih

theorem Timer.lookupTimer_none_of_not_any (ts : List (String × Timer.Rec)) (n : String)
    (h : ¬ts.any (fun p => p.1 = n)) : Timer.lookupTimer ts n = none := by
  induction ts with
  | nil => rfl
  | cons q rest ih =>
    obtain ⟨k, r⟩ := q
    have hq : ¬k = n := fun hqn =>
      h (List.any_eq_true.mpr ⟨(k, r), List.mem_cons_self .., by simpa using hqn⟩)
    rw [Timer.lookupTimer, if_neg hq]
    exact ih (fun ha => by
      rcases List.any_eq_true.mp ha with ⟨p, hp, hpn⟩
      exact h (List.any_eq_true.mpr ⟨p, List.mem_cons_of_mem _ hp, hpn⟩))

theorem Timer.lookup_setEntry_self (ts : List (String × Timer.Rec)) (n : String)
    (v : Timer.Rec) : Timer.lookupTimer (Timer.setEntry ts n v) n = some v := by
  rw [Timer.setEntry]
  by_cases h : ts.any (fun p => p.1 = n)
  · rw [if_pos h, Timer.lookupTimer_map_set, if_pos h]
  · rw [if_neg h, Timer.lookupTimer_append, Timer.lookupTimer_none_of_not_any ts n h]
    simp [Timer.lookupTimer]

theorem Timer.lookup_setEntry_other (ts : List (String × Timer.Rec)) (n m : String)
    (v : Timer.Rec) (h : m ≠ n) :
    Timer.lookupTimer (Timer.setEntry ts n v) m = Timer.lookupTimer ts m := by
  rw [Timer.setEntry]
  by_cases hany : ts.any (fun p => p.1 = n)
  · rw [if_pos hany]
    clear hany
    induction ts with
    | nil => rfl
    | cons q rest ih =>
      obtain ⟨k, r⟩ := q
      simp only [List.map_cons]
      by_cases hq : k = n
      · rw [if_pos hq]
        rw [Timer.lookupTimer, Timer.lookupTimer,
          if_neg (fun hh => h hh.symm), if_neg (fun hh : k = m => h (hq ▸ hh).symm)]
        exact ih
      · rw [if_neg hq]
        rw [Timer.lookupTimer, Timer.lookupTimer]
        by_cases hm : k = m
        · rw [if_pos hm, if_pos hm]
        · rw [if_neg hm, if_neg hm]
          exact ih
  · rw [if_neg hany, Timer.lookupTimer_append]
    cases hl : Timer.lookupTimer ts m with
    | some r => rfl
    | none =>
      simp only [Timer.lookupTimer]
      rw [if_neg (fun hh => h hh.symm)]

/-- C6: `set_timer` with an existing name replaces the old countdown with a
fresh pending one inside one locked transition (other timers untouched), and
when the old timer was ringing the alarm is stopped — `_stop_alarm()` appears
in the call trace strictly before the replacement's `thread.start()`, and the
sound thread is down in the resulting state, so no overlapping alarm audio
occurs. -/
theorem C6_set_timer_replaces (tm : Timer.TM) (name : String) (dur now : ℚ)
    (o : Timer.Rec) (h : Timer.lookupTimer tm.timers name = some o) :
    Timer.lookupTimer (Timer.set_timer tm name dur now).1.timers name =
      some ⟨dur, now, Timer.TState.pending, true⟩ ∧
    (∀ m, m ≠ name →
      Timer.lookupTimer (Timer.set_timer tm name dur now).1.timers m = Timer.lookupTimer tm.timers m) ∧
    (∃ pre, (Timer.set_timer tm name dur now).2.2 = pre ++ [Timer.Act.startThread name] ∧
      (o.hasThread = true → Timer.Act.cancelThread name ∈ pre) ∧
      (o.state = Timer.TState.ringing →
        Timer.Act.stopAlarm ∈ pre ∧
          (Timer.set_timer tm name dur now).1.soundPlaying = false)) := by
  refine ⟨?_, ?_, ?_⟩
  · simp only [Timer.set_timer]
    exact Timer.lookup_setEntry_self tm.timers name _
  · intro m hm
    simp only [Timer.set_timer]
    exact Timer.lookup_setEntry_other tm.timers name m _ hm
  · refine ⟨(if o.hasThread then [Timer.Act.cancelThread name] else []) ++
      (if o.state = Timer.TState.ringing then [Timer.Act.stopAlarm] else []), ?_, ?_, ?_⟩
    · simp [Timer.set_timer, h]
    · intro ht
      simp [ht]
    · intro hr
      refine ⟨by simp [hr], ?_⟩
      simp [Timer.set_timer, h, hr]

/-- Witness for C6: replacing a ringing timer named "tea" stops the alarm and
installs a fresh pending countdown. -/
theorem C6_set_timer_replaces_witness :
    Timer.lookupTimer (Timer.set_timer ⟨[("tea", ⟨60, 0, Timer.TState.ringing, true⟩)], some "tea", true, false⟩
        "tea" 120 5).1.timers "tea" =
      some ⟨120, 5, Timer.TState.pending, true⟩ ∧
    (Timer.set_timer ⟨[("tea", ⟨60, 0, Timer.TState.ringing, true⟩)], some "tea", true, false⟩
        "tea" 120 5).1.soundPlaying = false := by
  have h := C6_set_timer_replaces
    ⟨[("tea", ⟨60, 0, Timer.TState.ringing, true⟩)], some "tea", true, false⟩
    "tea" 120 5 ⟨60, 0, Timer.TState.ringing, true⟩ (by decide)
  obtain ⟨h1, -, pre, -, -, h3⟩ := h
  exact ⟨h1, (h3 rfl).2⟩

/-! ## Python string helpers

Used by the phrase matching of `src/rex/states/phrases.py` and by
`parse_duration`.  `pyLower` models `str.lower()` and `pyStrip` models
`str.strip()` (every string appearing in the claims is ASCII, where these
agree with Python exactly). -/

def pyLower (s : String) : String :=
  String.mk (s.data.map Char.toLower)

def pyStripList (l : List Char) : List Char :=
  ((l.dropWhile Char.isWhitespace).reverse.dropWhile Char.isWhitespace).reverse

def pyStrip (s : String) : String :=
  String.mk (pyStripList s.data)

/-- `xs` occurs as a contiguous subsequence of `ys` starting at some
position. -/
def containsSeq (needle : List Char) : List Char → Bool
  | [] => needle.isEmpty
  | c :: rest => needle.isPrefixOf (c :: rest) || containsSeq needle rest

/-- Python's substring test `needle in haystack`. -/
def pyIn (needle haystack : String) : Bool :=
  containsSeq needle.data haystack.data

/-! ## Conversation states (`src/core/state_machine.py`, `src/rex/states/`) -/

namespace States

/-- `core.state_machine.ConversationState`. -/
inductive ConversationState where
  | waitingForWakeWord
  | listening
  | processing
  | speaking
  | awaitingConfirmation
  | deliveringReminder
  | shuttingDown
deriving DecidableEq, Repr

/-- Raw PCM audio handed between states; its sample values are opaque to the
handlers. -/
abbrev Audio := List ℤ

/-- Conversation history entries (langchain role-tagged messages). -/
inductive Msg where
  | user (content : String)
  | ai (content : String)
  | tool (content : String)
deriving DecidableEq, Repr

/-- The `data` dict carried by `StateResult`: the keys the state handlers
read, each optional with the default the handlers fall back to. -/
structure StateData where
  audio : Option Audio := none
  isWakeWordTrigger : Bool := false
  response : Option String := none
  forceEndConversation : Bool := false
  transcription : Option String := none
deriving DecidableEq, Repr

/-- `core.state_machine.StateResult`. -/
structure StateResult where
  nextState : ConversationState
  data : StateData
deriving DecidableEq, Repr

/-! ### Phrase matching (`src/rex/states/phrases.py`) -/

def CONFIRM_PHRASES : List String :=
  ["yes", "yeah", "yep", "sure", "okay", "ok",
   "confirm", "do it", "go ahead", "proceed",
   "clear", "done", "got it"]

def REJECT_PHRASES : List String :=
  ["no", "nope", "cancel", "nevermind", "never mind", "don't", "stop"]

/-- `phrases.is_confirmation`: any confirm phrase occurs as a substring of
the stripped, lowercased text. -/
def is_confirmation (text : String) : Bool :=
  let normalized := pyLower (pyStrip text)
  CONFIRM_PHRASES.any (fun phrase => pyIn phrase normalized)

/-- `phrases.is_rejection`. -/
def is_rejection (text : String) : Bool :=
  let normalized := pyLower (pyStrip text)
  REJECT_PHRASES.any (fun phrase => pyIn phrase normalized)

/-! ### AwaitingConfirmation (`src/rex/states/confirming.py`) -/

/-- `agent.PendingConfirmation`, as consumed by the handler. -/
structure PendingConfirmation where
  toolName : String
  confirmationPrompt : String
  threadId : String
deriving DecidableEq, Repr

/-- `AwaitingConfirmationHandler.process`.  External collaborators appear as
parameters: `listened` is the result of
`listen_for_speech(timeout=CONFIRMATION_TIMEOUT)` (`none` on timeout),
`transcribe` is the transcriber, and `confirm` is
`agent.confirm_tool_call(pending, confirmed=b)`, returning the response text
and the updated history.  Returns the `StateResult`, the `confirmed` flag
passed to `confirm_tool_call` (`none` when it was never called), and the
history written back to `ctx.conversation_history` (`none` when untouched). -/
def confirmingProcess (pending : Option PendingConfirmation) (listened : Option Audio)
    (transcribe : Audio → String) (confirm : Bool → String × List Msg) :
    StateResult × Option Bool × Option (List Msg) :=
  match pending with
  | none =>
    (⟨ConversationState.speaking,
      { response := some "Something went wrong with the confirmation." }⟩, none, none)
  | some _ =>
    match listened with
    | none =>
      let (resp, hist) := confirm false
      (⟨ConversationState.speaking,
        { response := some resp, forceEndConversation := true }⟩, some false, some hist)
    | some audio =>
      let t := transcribe audio
      if t = "" then
        let (resp, hist) := confirm false
        (⟨ConversationState.speaking,
          { response := some resp, forceEndConversation := true }⟩, some false, some hist)
      else
        let b := is_confirmation t
        let (resp, hist) := confirm b
        (⟨ConversationState.speaking,
          { response := some resp, forceEndConversation := true }⟩, some b, some hist)

/-! ### Speaking (`src/rex/states/speaking.py`) -/

/-- `self._response.strip().endswith("?")`. -/
def endsWithQuestion (response : String) : Bool :=
  (pyStrip response).data.getLast? = some '?'

/-- `SpeakingHandler.process`.  `speakResult` is what
`speaker.speak_interruptibly(response)` returned:
`(was_interrupted, captured_audio)`.  Returns the `StateResult` and the
conversation history after the handler ran. -/
def speakingProcess (response : String) (forceEnd : Bool) (history : List Msg)
    (speakResult : Bool × Option Audio) : StateResult × List Msg :=
  if response = "" then
    (⟨ConversationState.waitingForWakeWord, {}⟩, history)
  else
    let (wasInterrupted, captured) := speakResult
    if wasInterrupted then
      let history' :=
        match history.getLast? with
        | some (Msg.ai c) => history.dropLast ++ [Msg.ai (c ++ " [interrupted]")]
        | _ => history
      (⟨ConversationState.listening,
        { audio := captured, isWakeWordTrigger := true }⟩, history')
    else if forceEnd then
      (⟨ConversationState.waitingForWakeWord, {}⟩, history)
    else if endsWithQuestion response then
      (⟨ConversationState.listening,
        { audio := none, isWakeWordTrigger := false }⟩, history)
    else
      (⟨ConversationState.waitingForWakeWord, {}⟩, history)

/-! ### Listening (`src/rex/states/listening.py`) -/

def STOP_PHRASES : List String :=
  ["stop", "nevermind", "never mind", "cancel", "forget it"]

/-- The transcription-and-dispatch part of `ListeningHandler.process`, run
once audio is in hand: transcribe (stripping the wake word exactly when this
capture came from a wake trigger), handle the empty transcription, the
global timer-stop command, and the mid-conversation stop phrases; otherwise
hand the transcription to Processing. -/
def listeningDispatch (audio : Audio) (isWakeTrigger : Bool)
    (transcribe : Audio → Bool → String) (inConversation : Bool) : StateResult :=
  let transcription := transcribe audio isWakeTrigger
  if transcription = "" then
    if inConversation then
      ⟨ConversationState.listening, { audio := none, isWakeWordTrigger := false }⟩
    else ⟨ConversationState.waitingForWakeWord, {}⟩
  else
    let normalized := pyLower (pyStrip transcription)
    if normalized = "stop" ∨ normalized = "stop the timer" then
      ⟨ConversationState.waitingForWakeWord, {}⟩
    else if inConversation ∧ normalized ∈ STOP_PHRASES then
      ⟨ConversationState.waitingForWakeWord, {}⟩
    else
      ⟨ConversationState.processing, { transcription := some transcription }⟩

/-- `ListeningHandler.process`: when no audio was supplied by the previous
state, wait on the microphone (`listen_for_speech`, whose would-be result is
`micResult`) and end the conversation on timeout.  The second component
records whether the microphone wait happened. -/
def listeningProcess (supplied : Option Audio) (isWakeTrigger : Bool)
    (micResult : Option Audio) (transcribe : Audio → Bool → String)
    (inConversation : Bool) : StateResult × Bool :=
  match supplied with
  | some a => (listeningDispatch a isWakeTrigger transcribe inConversation, false)
  | none =>
    match micResult with
    | none => (⟨ConversationState.waitingForWakeWord, {}⟩, true)
    | some a => (listeningDispatch a isWakeTrigger transcribe inConversation, true)

end States

/-! ### Theorems about the confirmation handler (claim C1) -/

/-- Counterexample to C1 as stated: the transcription "change it to 5 pm" is
neither an affirmative (`is_confirmation` is false) nor a negative
(`is_rejection` is false), yet `AwaitingConfirmationHandler.process` treats
it as a plain rejection and transitions to Speaking — not to Processing with
the text as a new user turn. -/
theorem C1_counterexample :
    States.is_confirmation "change it to 5 pm" = false ∧
    States.is_rejection "change it to 5 pm" = false ∧
    (States.confirmingProcess (some ⟨"create_reminder", "Should I?", "t1"⟩)
        (some [0]) (fun _ => "change it to 5 pm")
        (fun _ => ("Okay, I have cancelled that action.", []))).1.nextState =
      States.ConversationState.speaking ∧
    States.ConversationState.speaking ≠ States.ConversationState.processing ∧
    (States.confirmingProcess (some ⟨"create_reminder", "Should I?", "t1"⟩)
        (some [0]) (fun _ => "change it to 5 pm")
        (fun _ => ("Okay, I have cancelled that action.", []))).2.1 = some false := by
  refine ⟨by decide, by decide, rfl, by decide, rfl⟩

/-- C1 (amended): `AwaitingConfirmationHandler.process` always transitions to
Speaking (there is no modification path back to Processing).  A timeout or an
empty transcription defaults to rejection (`confirm_tool_call` with
`confirmed=False`, forced end of conversation); any transcribed response is
resolved by `is_confirmation` alone — responses that contain a confirmation
phrase confirm, every other response (including modification requests)
rejects. -/
theorem C1_confirmation_no_modification
    (pending : Option States.PendingConfirmation) (listened : Option States.Audio)
    (transcribe : States.Audio → String)
    (confirm : Bool → String × List States.Msg) :
    (States.confirmingProcess pending listened transcribe confirm).1.nextState =
      States.ConversationState.speaking ∧
    (∀ pc, pending = some pc → listened = none →
      (States.confirmingProcess pending listened transcribe confirm).2.1 = some false ∧
      (States.confirmingProcess pending listened transcribe confirm).1.data.forceEndConversation = true) ∧
    (∀ pc a, pending = some pc → listened = some a → transcribe a = "" →
      (States.confirmingProcess pending listened transcribe confirm).2.1 = some false) ∧
    (∀ pc a, pending = some pc → listened = some a → transcribe a ≠ "" →
      (States.confirmingProcess pending listened transcribe confirm).2.1 =
        some (States.is_confirmation (transcribe a))) := by
  refine ⟨?_, ?_, ?_, ?_⟩
  · cases pending with
    | none => rfl
    | some pc =>
      cases listened with
      | none => rfl
      | some a =>
        by_cases h : transcribe a = "" <;>
          simp [States.confirmingProcess, h]
  · rintro pc rfl rfl
    exact ⟨rfl, rfl⟩
  · rintro pc a rfl rfl h
    simp [States.confirmingProcess, h]
  · rintro pc a rfl rfl h
    simp [States.confirmingProcess, h]

/-- Witness for the amended C1 at a concrete modification-style response. -/
theorem C1_confirmation_no_modification_witness :
    (States.confirmingProcess (some ⟨"create_reminder", "Should I?", "t1"⟩)
        (some [0]) (fun _ => "make it 11 pm")
        (fun _ => ("Okay, I have cancelled that action.", []))).2.1 =
      some (States.is_confirmation "make it 11 pm") :=
  (C1_confirmation_no_modification (some ⟨"create_reminder", "Should I?", "t1"⟩)
      (some [0]) (fun _ => "make it 11 pm")
      (fun _ => ("Okay, I have cancelled that action.", []))).2.2.2
    ⟨"create_reminder", "Should I?", "t1"⟩ [0] rfl rfl (by decide)

/-! ### Theorems about Speaking interruption hand-off (claim C3) -/

/-- C3: when `speak_interruptibly` reports an interruption with captured
follow-up audio, Speaking transitions to Listening carrying exactly that
audio (wake-word-trigger set) and tags the interrupted reply in the history;
Listening performs the microphone wait exactly when its supplied audio is
absent. -/
theorem C3_interrupt_forwards_audio (response : String) (forceEnd : Bool)
    (hs : List States.Msg) (c : String) (a : States.Audio)
    (micResult : Option States.Audio) (transcribe : States.Audio → Bool → String)
    (inConversation : Bool) (hresp : response ≠ "") :
    States.speakingProcess response forceEnd (hs ++ [States.Msg.ai c]) (true, some a) =
      (⟨States.ConversationState.listening,
        { audio := some a, isWakeWordTrigger := true }⟩,
       hs ++ [States.Msg.ai (c ++ " [interrupted]")]) ∧
    (States.listeningProcess (some a) true micResult transcribe inConversation).2 = false ∧
    (States.listeningProcess none false micResult transcribe inConversation).2 = true := by
  refine ⟨?_, ?_, ?_⟩
  · simp [States.speakingProcess, hresp, List.getLast?_concat, List.dropLast_concat]
  · rfl
  · cases micResult with
    | none => rfl
    | some m => rfl

/-- Witness for C3 at a concrete interrupted reply. -/
theorem C3_interrupt_forwards_audio_witness :
    States.speakingProcess "It is 3 pm." false
        [States.Msg.user "what time is it", States.Msg.ai "It is 3 pm."]
        (true, some [1, 2, 3]) =
      (⟨States.ConversationState.listening,
        { audio := some [1, 2, 3], isWakeWordTrigger := true }⟩,
       [States.Msg.user "what time is it",
        States.Msg.ai "It is 3 pm. [interrupted]"]) :=
  (C3_interrupt_forwards_audio "It is 3 pm." false [States.Msg.user "what time is it"]
      "It is 3 pm." [1, 2, 3] none (fun _ _ => "") false (by decide)).1

/-! ## VAD chunking (`src/wake_word/wake_word_listener.py`, `VADProcessor`)

`VADProcessor` buffers numpy audio chunks and feeds complete
`chunk_size`-sample windows to the VAD model.  The sample type is opaque to
the chunking logic, so it is a type parameter; the VAD model is an external
collaborator passed as a function returning the speech probability. -/

namespace VAD

/-- The state of a `VADProcessor`: the configured `chunk_size` and the
chunk buffer `_buffer` (a list of numpy arrays). -/
structure Processor (α : Type) where
  chunkSize : ℕ
  buffer : List (List α)

/-- `VADProcessor.add_audio`. -/
def add_audio {α : Type} (p : Processor α) (chunk : List α) : Processor α :=
  { p with buffer := p.buffer ++ [chunk] }

/-- The `while total_samples >= self._chunk_size` loop of
`VADProcessor.process`: concatenate the buffer, split off one
`chunk_size`-sample window, keep the remainder (as a single buffered array
when nonempty), repeat.  Returns the consumed windows in order and the final
buffer.  The Python loop would not terminate for `chunk_size = 0`; the
`0 < cs` guard makes the Lean function total (no caller uses 0). -/
def processLoop {α : Type} (cs : ℕ) (buf : List (List α)) :
    List (List α) × List (List α) :=
  if _h : 0 < cs ∧ cs ≤ buf.flatten.length then
    let rest := processLoop cs
      (if 0 < (buf.flatten.drop cs).length then [buf.flatten.drop cs] else [])
    (buf.flatten.take cs :: rest.1, rest.2)
  else ([], buf)
termination_by buf.flatten.length
decreasing_by
  split
  · simp only [List.flatten_cons, List.flatten_nil, List.append_nil, List.length_drop]
    omega
  · simp only [List.flatten_nil, List.length_nil]
    omega

/-- `VADProcessor.process`: run the loop and map the VAD model over the
consumed windows (`probabilities.append(speech_prob)` per iteration). -/
def process {α : Type} (p : Processor α) (model : List α → ℚ) :
    Processor α × List ℚ :=
  let r := processLoop p.chunkSize p.buffer
  ({ p with buffer := r.2 }, r.1.map model)

/-- One interaction with a `VADProcessor`: an `add_audio` call or a
`process` call. -/
inductive Op (α : Type) where
  | add (chunk : List α)
  | run

/-- All samples added by a sequence of operations, in arrival order. -/
def addedSamples {α : Type} (ops : List (Op α)) : List α :=
  (ops.filterMap (fun op =>
    match op with
    | Op.add chunk => some chunk
    | Op.run => none)).flatten

/-- Run one operation, accumulating every consumed window and every emitted
probability. -/
def step {α : Type} (model : List α → ℚ)
    (st : Processor α × List (List α) × List ℚ) (op : Op α) :
    Processor α × List (List α) × List ℚ :=
  match op with
  | Op.add chunk => (add_audio st.1 chunk, st.2.1, st.2.2)
  | Op.run =>
    let r := process st.1 model
    (r.1, st.2.1 ++ (processLoop st.1.chunkSize st.1.buffer).1, st.2.2 ++ r.2)

/-- Run a sequence of operations on a fresh processor. -/
def execOps {α : Type} (cs : ℕ) (model : List α → ℚ) (ops : List (Op α)) :
    Processor α × List (List α) × List ℚ :=
  ops.foldl (step model) (⟨cs, []⟩, [], [])

end VAD

/-! ### Theorems about VAD chunking -/

theorem VAD.processLoop_spec {α : Type} (cs : ℕ) (hcs : 0 < cs) :
    ∀ (n : ℕ) (buf : List (List α)), buf.flatten.length ≤ n →
      (VAD.processLoop cs buf).1.flatten ++ (VAD.processLoop cs buf).2.flatten =
          buf.flatten ∧
        (∀ c ∈ (VAD.processLoop cs buf).1, c.length = cs) ∧
        (VAD.processLoop cs buf).2.flatten.length < cs := by
  intro n
  induction n with
  | zero =>
    intro buf hlen
    rw [VAD.processLoop, dif_neg (by omega)]
    refine ⟨rfl, by simp, ?_⟩
    show buf.flatten.length < cs
    omega
  | succ n ih =>
    intro buf hlen
    rw [VAD.processLoop]
    by_cases h : 0 < cs ∧ cs ≤ buf.flatten.length
    · rw [dif_pos h]
      have hflat : (if 0 < (buf.flatten.drop cs).length
          then [buf.flatten.drop cs] else ([] : List (List α))).flatten =
            buf.flatten.drop cs := by
        split
        · simp
        · simp only [List.flatten_nil]
          next hz =>
          have : (buf.flatten.drop cs).length = 0 := by omega
          exact (List.eq_nil_of_length_eq_zero this).symm
      have hlen' : (if 0 < (buf.flatten.drop cs).length
          then [buf.flatten.drop cs] else ([] : List (List α))).flatten.length ≤ n := by
        rw [hflat]
        simp only [List.length_drop]
        omega
      obtain ⟨ih1, ih2, ih3⟩ := ih _ hlen'
      refine ⟨?_, ?_, ih3⟩
      · simp only [List.flatten_cons]
        rw [List.append_assoc, ih1, hflat, List.take_append_drop]
      · intro c hc
        rcases List.mem_cons.mp hc with rfl | hc'
        · simp only [List.length_take]
          omega
        · exact ih2 c hc'
    · rw [dif_neg h]
      refine ⟨rfl, by simp, ?_⟩
      show buf.flatten.length < cs
      omega

theorem VAD.exec_inv {α : Type} (cs : ℕ) (hcs : 0 < cs) (model : List α → ℚ)
    (ops : List (VAD.Op α)) :
    ∀ (p : VAD.Processor α) (ws : List (List α)) (ps : List ℚ),
      p.chunkSize = cs → (∀ w ∈ ws, w.length = cs) → ps = ws.map model →
      (List.foldl (VAD.step model) (p, ws, ps) ops).1.chunkSize = cs ∧
      (List.foldl (VAD.step model) (p, ws, ps) ops).2.1.flatten ++
          (List.foldl (VAD.step model) (p, ws, ps) ops).1.buffer.flatten =
        ws.flatten ++ p.buffer.flatten ++ VAD.addedSamples ops ∧
      (∀ w ∈ (List.foldl (VAD.step model) (p, ws, ps) ops).2.1, w.length = cs) ∧
      (List.foldl (VAD.step model) (p, ws, ps) ops).2.2 =
        (List.foldl (VAD.step model) (p, ws, ps) ops).2.1.map model := by
  induction ops with
  | nil =>
    intro p ws ps hcs' hws hps
    simpa [VAD.addedSamples] using ⟨hcs', hws, hps⟩
  | cons op rest ih =>
    intro p ws ps hcs' hws hps
    obtain ⟨pcs, pbuf⟩ := p
    have hpcs : pcs = cs := hcs'
    subst hpcs
    cases op with
    | add chunk =>
      simp only [List.foldl_cons, VAD.step]
      obtain ⟨g1, g2, g3, g4⟩ :=
        ih (VAD.add_audio ⟨pcs, pbuf⟩ chunk) ws ps rfl hws hps
      refine ⟨g1, ?_, g3, g4⟩
      rw [g2]
      simp [VAD.add_audio, VAD.addedSamples, List.filterMap_cons]
    | run =>
      simp only [List.foldl_cons, VAD.step, VAD.process]
      obtain ⟨s1, s2, s3⟩ := VAD.processLoop_spec pcs hcs pbuf.flatten.length
        pbuf (le_refl _)
      obtain ⟨g1, g2, g3, g4⟩ := ih
        ⟨pcs, (VAD.processLoop pcs pbuf).2⟩
        (ws ++ (VAD.processLoop pcs pbuf).1)
        (ps ++ ((VAD.processLoop pcs pbuf).1).map model)
        rfl
        (by
          intro w hw
          rcases List.mem_append.mp hw with hw' | hw'
          · exact hws w hw'
          · exact s2 w hw')
        (by rw [hps, List.map_append])
      refine ⟨g1, ?_, g3, g4⟩
      rw [g2]
      rw [show ({ chunkSize := pcs, buffer := (VAD.processLoop pcs pbuf).2 } :
        VAD.Processor α).buffer = (VAD.processLoop pcs pbuf).2 from rfl]
      rw [show VAD.addedSamples (VAD.Op.run :: rest) = VAD.addedSamples rest from
        by simp [VAD.addedSamples, List.filterMap_cons]]
      congr 1
      rw [List.flatten_append, List.append_assoc, s1]

theorem VAD.flatten_length_of_const {α : Type} (k : ℕ) (L : List (List α))
    (h : ∀ w ∈ L, w.length = k) : L.flatten.length = k * L.length := by
  induction L with
  | nil => simp
  | cons w rest ih =>
    simp only [List.flatten_cons, List.length_append, List.length_cons]
    rw [h w (List.mem_cons_self ..),
      ih (fun w' hw' => h w' (List.mem_cons_of_mem _ hw'))]
    ring

/-- C8: running any sequence of `add_audio`/`process` calls on a fresh
`VADProcessor` with the default 512-sample window: every consumed window is
exactly 512 samples; probabilities are the VAD model applied to the consumed
windows, one per window, in arrival order; the consumed windows followed by
the remaining buffer reproduce exactly the samples added so far (nothing
dropped or duplicated across chunk boundaries); and after a trailing
`process` call fewer than 512 samples remain buffered, so the number of
probabilities emitted equals the total sample count divided by 512. -/
theorem C8_vad_chunking {α : Type} (model : List α → ℚ) (ops : List (VAD.Op α)) :
    (VAD.execOps 512 model ops).2.1.flatten ++
        (VAD.execOps 512 model ops).1.buffer.flatten = VAD.addedSamples ops ∧
    (∀ w ∈ (VAD.execOps 512 model ops).2.1, w.length = 512) ∧
    (VAD.execOps 512 model ops).2.2 = (VAD.execOps 512 model ops).2.1.map model ∧
    (VAD.execOps 512 model (ops ++ [VAD.Op.run])).1.buffer.flatten.length < 512 ∧
    (VAD.execOps 512 model (ops ++ [VAD.Op.run])).2.2.length =
      (VAD.addedSamples (ops ++ [VAD.Op.run])).length / 512 := by
  have h512 : (0 : ℕ) < 512 := by omega
  obtain ⟨g1, g2, g3, g4⟩ := VAD.exec_inv 512 h512 model ops ⟨512, []⟩ [] [] rfl
    (by simp) (by simp)
  obtain ⟨G1, G2, G3, G4⟩ := VAD.exec_inv 512 h512 model (ops ++ [VAD.Op.run])
    ⟨512, []⟩ [] [] rfl (by simp) (by simp)
  have hrun : (VAD.execOps 512 model (ops ++ [VAD.Op.run])).1.buffer.flatten.length
      < 512 := by
    rw [VAD.execOps, List.foldl_append]
    simp only [List.foldl_cons, List.foldl_nil, VAD.step, VAD.process]
    have hcs' : (List.foldl (VAD.step model) (⟨512, []⟩, [], []) ops).1.chunkSize
        = 512 := by
      simpa [VAD.execOps] using g1
    rw [hcs']
    exact (VAD.processLoop_spec 512 h512 _ _ (le_refl _)).2.2
  refine ⟨by simpa [VAD.execOps] using g2, by simpa [VAD.execOps] using g3,
    by simpa [VAD.execOps] using g4, hrun, ?_⟩
  have hflatA : (VAD.execOps 512 model (ops ++ [VAD.Op.run])).2.1.flatten ++
      (VAD.execOps 512 model (ops ++ [VAD.Op.run])).1.buffer.flatten =
        VAD.addedSamples (ops ++ [VAD.Op.run]) := by
    simpa [VAD.execOps] using G2
  have hlens : ∀ w ∈ (VAD.execOps 512 model (ops ++ [VAD.Op.run])).2.1,
      w.length = 512 := by
    simpa [VAD.execOps] using G3
  have hwlen : (VAD.execOps 512 model (ops ++ [VAD.Op.run])).2.1.flatten.length =
      512 * (VAD.execOps 512 model (ops ++ [VAD.Op.run])).2.1.length :=
    VAD.flatten_length_of_const 512 _ hlens
  have hplen : (VAD.execOps 512 model (ops ++ [VAD.Op.run])).2.2.length =
      (VAD.execOps 512 model (ops ++ [VAD.Op.run])).2.1.length := by
    rw [show (VAD.execOps 512 model (ops ++ [VAD.Op.run])).2.2 =
        (VAD.execOps 512 model (ops ++ [VAD.Op.run])).2.1.map model from
      by simpa [VAD.execOps] using G4]
    exact List.length_map _ _
  rw [hplen, ← hflatA, List.length_append, hwlen, Nat.mul_add_div h512,
    Nat.div_eq_of_lt hrun]
  omega

/-! ## Audio output manager (`src/audio/manager.py`)

`AudioManager` funnels all playback through one queue consumed by the
hardware output callback.  The state visible to the claims: the mute flag,
the output queue (audio clips and the completion sentinel), the completion
event, and the stop-requested flag.  `_resample` ends in a call to
`np.interp` (an external numeric routine), so resampling is passed in as a
function parameter; the blocking wait of `queue_audio_blocking` races the
callback thread, so its outcome — whether `interrupt_check()` fired before
the completion sentinel was consumed — is passed in as the oracle
`interrupted`. -/

namespace AudioMgr

def OUTPUT_SAMPLE_RATE : ℕ := 44100

/-- An entry of `_output_queue`: a pre-processed clip or the completion
sentinel. -/
inductive QItem where
  | clip (samples : List ℚ)
  | completionSentinel
deriving DecidableEq, Repr

structure Mgr where
  muted : Bool
  outputQueue : List QItem
  completionEventSet : Bool
  stopRequested : Bool
deriving DecidableEq, Repr

def pyMax : List ℚ → ℚ
  | [] => 0
  | a :: rest => rest.foldl max a

def pyMin : List ℚ → ℚ
  | [] => 0
  | a :: rest => rest.foldl min a

/-- The normalization step of `queue_audio`: divide by 32768 when any sample
leaves [-1, 1] (assumed int16 range).  `numpy` raises on `max()` of an empty
array; no caller queues an empty clip, and the model leaves `[]` unchanged. -/
def normalize (audio : List ℚ) : List ℚ :=
  if audio = [] then audio
  else if 1 < pyMax audio ∨ pyMin audio < -1 then audio.map (fun x => x / 32768)
  else audio

/-- `AudioManager.queue_audio`: a no-op while muted; otherwise resample to
the output rate if needed, normalize, and append the clip to the output
queue. -/
def queue_audio (m : Mgr) (resample : List ℚ → ℕ → ℕ → List ℚ)
    (audio : List ℚ) (sampleRate : Option ℕ) : Mgr :=
  if m.muted then m
  else
    let sr := sampleRate.getD OUTPUT_SAMPLE_RATE
    let audio₁ :=
      if sr ≠ OUTPUT_SAMPLE_RATE then resample audio sr OUTPUT_SAMPLE_RATE else audio
    { m with outputQueue := m.outputQueue ++ [QItem.clip (normalize audio₁)] }

/-- `AudioManager.stop_current`. -/
def stop_current (m : Mgr) : Mgr :=
  { m with stopRequested := true }

/-- `AudioManager.queue_audio_blocking`: returns `False` immediately while
muted; otherwise queues the audio, clears the completion event, queues the
completion sentinel, and waits — interrupted waits call `stop_current` and
return `True`, completed waits return `False`. -/
def queue_audio_blocking (m : Mgr) (resample : List ℚ → ℕ → ℕ → List ℚ)
    (audio : List ℚ) (sampleRate : Option ℕ) (interrupted : Bool) : Mgr × Bool :=
  if m.muted then (m, false)
  else
    let m₁ := queue_audio m resample audio sampleRate
    let m₂ := { m₁ with
      completionEventSet := false
      outputQueue := m₁.outputQueue ++ [QItem.completionSentinel] }
    if interrupted then (stop_current m₂, true)
    else ({ m₂ with completionEventSet := true }, false)

end AudioMgr

/-! ### Theorems about muted queueing -/

/-- C9: while the manager is muted, `queue_audio_blocking` returns `False`
immediately with the state untouched — no clip and no completion sentinel is
enqueued and no wait happens — and `queue_audio` likewise enqueues
nothing. -/
theorem C9_muted_queue_noop (m : AudioMgr.Mgr)
    (resample : List ℚ → ℕ → ℕ → List ℚ) (audio : List ℚ)
    (sampleRate : Option ℕ) (interrupted : Bool) (h : m.muted = true) :
    AudioMgr.queue_audio_blocking m resample audio sampleRate interrupted =
      (m, false) ∧
    AudioMgr.queue_audio m resample audio sampleRate = m := by
  constructor
  · rw [AudioMgr.queue_audio_blocking, if_pos h]
  · rw [AudioMgr.queue_audio, if_pos h]

/-- Witness for C9 at a concrete muted manager holding a nonempty queue. -/
theorem C9_muted_queue_noop_witness :
    AudioMgr.queue_audio_blocking
        ⟨true, [AudioMgr.QItem.clip [1]], false, false⟩
        (fun a _ _ => a) [2, 3] none true =
      (⟨true, [AudioMgr.QItem.clip [1]], false, false⟩, false) :=
  (C9_muted_queue_noop ⟨true, [AudioMgr.QItem.clip [1]], false, false⟩
      (fun a _ _ => a) [2, 3] none true rfl).1

/-! ## `parse_duration` (`src/agent/tools/timer.py`)

`parse_duration` lowercases and strips the string, then runs three
`re.search` calls:

* hours:   `(\d+(?:\.\d+)?)\s*(?:hours?|hrs?|h)`
* minutes: `(\d+(?:\.\d+)?)\s*(?:minutes?|mins?|m)(?!s)`
* seconds: `(\d+(?:\.\d+)?)\s*(?:seconds?|secs?|s)`

summing `group(1) * unit`; if none matched it falls back to `float(s) * 60`;
totals of zero or less (or no parse at all) give `None`.

The search is modelled exactly, using the following fact about these three
patterns: within a candidate match, a shorter-than-maximal choice for the
digit run `\d+`, for the fraction digits, or for the whitespace `\s*`
leaves the next character a digit, a digit after a dot, or whitespace
respectively — and no unit alternative begins with a digit, a dot, or
whitespace.  So every backtracking retry fails immediately and the greedy
(maximal) choice is the only candidate, which makes the matcher at a given
position deterministic: take the digit run, take `.` plus digits when
present (Python prefers the fraction taken; if the unit then fails, the
no-fraction retry stalls on the leading `.`), skip whitespace, and test the
unit alternatives.  The alternatives are tried in Python's order, but
success is simply "some alternative (with its `(?!s)` lookahead) matches",
and `group(1)` never depends on which alternative matched.  `re.search`
returns the match at the leftmost position where this succeeds.  Python
floats are modelled exactly by `ℚ`; `\s` is modelled by
`Char.isWhitespace` (they agree on every character the claims use). -/

namespace PD

/-- `float(...)` of a digit-run `group(1)`: the integer digits. -/
def decNat (ds : List Char) : ℕ :=
  ds.foldl (fun a c => 10 * a + (c.toNat - 48)) 0

/-- `float(group(1))` for a `\d+(?:\.\d+)?` group with integer digits
`intDs` and fraction digits `fracDs`. -/
def groupVal (intDs fracDs : List Char) : ℚ :=
  (decNat intDs : ℚ) + (decNat fracDs : ℚ) / (10 : ℚ) ^ fracDs.length

/-- One unit alternative, with the `(?!s)` lookahead when `lookS`. -/
def altTry (lookS : Bool) (s : List Char) (alt : List Char) : Bool :=
  alt.isPrefixOf s && (!lookS || !((s.drop alt.length).head? == some 's'))

/-- The unit alternation `(?:alt₁|alt₂|…)(?!s)?`. -/
def altsMatch (alts : List (List Char)) (lookS : Bool) (s : List Char) : Bool :=
  alts.any (altTry lookS s)

/-- The optional fraction `(?:\.\d+)?`: a dot followed by at least one
digit, else nothing.  Returns (fraction digits, rest). -/
def fracSplit (r : List Char) : List Char × List Char :=
  match r with
  | [] => ([], [])
  | c :: t =>
    if c = '.' then
      if (t.takeWhile Char.isDigit).isEmpty then ([], c :: t)
      else (t.takeWhile Char.isDigit, t.dropWhile Char.isDigit)
    else ([], c :: t)

/-- The whole pattern anchored at the start of `s`: digit run, optional
fraction, whitespace, unit alternation (with lookahead).  Returns the
`group(1)` value on a match. -/
def numUnitHere (alts : List (List Char)) (lookS : Bool) (s : List Char) : Option ℚ :=
  if (s.takeWhile Char.isDigit).isEmpty then none
  else if altsMatch alts lookS
      ((fracSplit (s.dropWhile Char.isDigit)).2.dropWhile Char.isWhitespace) then
    some (groupVal (s.takeWhile Char.isDigit) (fracSplit (s.dropWhile Char.isDigit)).1)
  else none

/-- `re.search`: the match at the leftmost position where the pattern
matches. -/
def reSearch (alts : List (List Char)) (lookS : Bool) : List Char → Option ℚ
  | [] => none
  | c :: t =>
    match numUnitHere alts lookS (c :: t) with
    | some v => some v
    | none => reSearch alts lookS t

/-- `hours?|hrs?|h`, in Python's trial order. -/
def hoursAlts : List (List Char) :=
  ["hours".data, "hour".data, "hrs".data, "hr".data, "h".data]

/-- `minutes?|mins?|m` (used with the `(?!s)` lookahead). -/
def minutesAlts : List (List Char) :=
  ["minutes".data, "minute".data, "mins".data, "min".data, "m".data]

/-- `seconds?|secs?|s`. -/
def secondsAlts : List (List Char) :=
  ["seconds".data, "second".data, "secs".data, "sec".data, "s".data]

/-- The optional sign of a Python float literal. -/
def pySign (s : List Char) : ℚ × List Char :=
  match s with
  | [] => (1, [])
  | c :: t => if c = '+' then (1, t) else if c = '-' then ((-1 : ℚ), t) else (1, c :: t)

/-- The optional exponent of a Python float literal; fails unless the rest
of the string is exactly an exponent (or empty). -/
def pyExp (mant : ℚ) : List Char → Option ℚ
  | [] => some mant
  | c :: t =>
    if c = 'e' then
      let et : ℤ × List Char :=
        match t with
        | [] => (1, [])
        | d :: u => if d = '+' then (1, u) else if d = '-' then ((-1 : ℤ), u) else (1, d :: u)
      if (et.2.takeWhile Char.isDigit).isEmpty ∨ et.2.dropWhile Char.isDigit ≠ [] then none
      else some (mant * (10 : ℚ) ^ (et.1 * (decNat (et.2.takeWhile Char.isDigit) : ℤ)))
    else none

/-- `float(duration_str)`: the decimal-literal grammar
`[+-]? (digits [. digits?] | . digits) (e [+-]? digits)?`, valued exactly in
`ℚ`.  (The input has already been lowercased, so only `e` occurs; the
`inf`/`nan` spellings and digit-group underscores are not modelled — no
claim exercises them.) -/
def pyFloat (s : List Char) : Option ℚ :=
  let sg := pySign s
  let intDs := sg.2.takeWhile Char.isDigit
  let r := sg.2.dropWhile Char.isDigit
  let frr : List Char × List Char :=
    match r with
    | [] => ([], [])
    | c :: t =>
      if c = '.' then (t.takeWhile Char.isDigit, t.dropWhile Char.isDigit)
      else ([], c :: t)
  if intDs.isEmpty ∧ frr.1.isEmpty then none
  else pyExp (sg.1 * groupVal intDs frr.1) frr.2

/-- The body of `parse_duration` after `duration_str.lower().strip()`: the
three unit searches accumulating `total_seconds`, the bare-number fallback,
and the final `total_seconds if found_any and total_seconds > 0 else None`. -/
def parse_duration_core (ds : List Char) : Option ℚ :=
  let hm := reSearch hoursAlts false ds
  let mm := reSearch minutesAlts true ds
  let sm := reSearch secondsAlts false ds
  let t₁ : ℚ := match hm with | some v => v * 3600 | none => 0
  let t₂ : ℚ := t₁ + (match mm with | some v => v * 60 | none => 0)
  let t₃ : ℚ := t₂ + (match sm with | some v => v | none => 0)
  let res : ℚ × Bool :=
    if hm.isSome || mm.isSome || sm.isSome then (t₃, true)
    else
      match pyFloat ds with
      | some v => (v * 60, true)
      | none => (t₃, false)
  if res.2 = true ∧ 0 < res.1 then some res.1 else none

/-- `timer.parse_duration`. -/
def parse_duration (durationStr : String) : Option ℚ :=
  parse_duration_core (pyStripList (durationStr.data.map Char.toLower))

/-- The decimal rendering of a natural number (most significant digit
first), used to state the claim "for all N, M, S". -/
def digitChar : ℕ → Char
  | 0 => '0'
  | 1 => '1'
  | 2 => '2'
  | 3 => '3'
  | 4 => '4'
  | 5 => '5'
  | 6 => '6'
  | 7 => '7'
  | 8 => '8'
  | _ => '9'

def natDec (n : ℕ) : List Char :=
  if n < 10 then [digitChar n]
  else natDec (n / 10) ++ [digitChar (n % 10)]
termination_by n
decreasing_by omega

end PD

/-! ### Facts about decimal renderings -/

theorem PD.digitChar_facts (d : ℕ) (h : d < 10) :
    (PD.digitChar d).isDigit = true ∧ (PD.digitChar d).toLower = PD.digitChar d ∧
      (PD.digitChar d).isWhitespace = false ∧ (PD.digitChar d).toNat - 48 = d ∧
      ¬PD.digitChar d = '+' ∧ ¬PD.digitChar d = '-' ∧ ¬PD.digitChar d = '.' := by
  interval_cases d <;> exact ⟨by decide, by decide, by decide, by decide,
    by decide, by decide, by decide⟩

theorem PD.natDec_ne_nil (n : ℕ) : PD.natDec n ≠ [] := by
  rw [PD.natDec]
  split
  · simp
  · simp

theorem PD.natDec_chars (n : ℕ) :
    ∀ c ∈ PD.natDec n, c.isDigit = true ∧ c.toLower = c ∧ c.isWhitespace = false ∧
      ¬c = '+' ∧ ¬c = '-' ∧ ¬c = '.' := by
  induction n using Nat.strong_induction_on with
  | _ n ih =>
    rw [PD.natDec]
    split
    · next h =>
      intro c hc
      rw [List.mem_singleton] at hc
      subst hc
      obtain ⟨f1, f2, f3, -, f5, f6, f7⟩ := PD.digitChar_facts n h
      exact ⟨f1, f2, f3, f5, f6, f7⟩
    · next h =>
      intro c hc
      rcases List.mem_append.mp hc with h1 | h1
      · exact ih (n / 10) (by omega) c h1
      · rw [List.mem_singleton] at h1
        subst h1
        obtain ⟨f1, f2, f3, -, f5, f6, f7⟩ := PD.digitChar_facts (n % 10) (by omega)
        exact ⟨f1, f2, f3, f5, f6, f7⟩

theorem PD.decNat_concat (xs : List Char) (c : Char) :
    PD.decNat (xs ++ [c]) = 10 * PD.decNat xs + (c.toNat - 48) := by
  rw [PD.decNat, PD.decNat, List.foldl_append]
  rfl

theorem PD.decNat_natDec (n : ℕ) : PD.decNat (PD.natDec n) = n := by
  induction n using Nat.strong_induction_on with
  | _ n ih =>
    rw [PD.natDec]
    split
    · next h =>
      show PD.decNat [PD.digitChar n] = n
      rw [show [PD.digitChar n] = [] ++ [PD.digitChar n] from rfl, PD.decNat_concat]
      rw [show PD.decNat [] = 0 from rfl, (PD.digitChar_facts n h).2.2.2.1]
      omega
    · next h =>
      rw [PD.decNat_concat, ih (n / 10) (by omega),
        (PD.digitChar_facts (n % 10) (by omega)).2.2.2.1]
      omega

theorem PD.map_toLower_id (l : List Char) (h : ∀ c ∈ l, c.toLower = c) :
    l.map Char.toLower = l := by
  induction l with
  | nil => rfl
  | cons c t ih =>
    rw [List.map_cons, h c (List.mem_cons_self ..),
      ih (fun c' hc' => h c' (List.mem_cons_of_mem _ hc'))]

theorem PD.natDec_map_toLower (n : ℕ) :
    (PD.natDec n).map Char.toLower = PD.natDec n :=
  PD.map_toLower_id _ (fun c hc => (PD.natDec_chars n c hc).2.1)

/-! ### takeWhile / dropWhile over splits -/

theorem PD.takeWhile_append_all (p : Char → Bool) (xs ys : List Char)
    (h : ∀ c ∈ xs, p c = true) :
    (xs ++ ys).takeWhile p = xs ++ ys.takeWhile p := by
  induction xs with
  | nil => rfl
  | cons c t ih =>
    rw [List.cons_append, List.takeWhile_cons, if_pos (h c (List.mem_cons_self ..)),
      ih (fun c' hc' => h c' (List.mem_cons_of_mem _ hc'))]
    rfl

theorem PD.dropWhile_append_all (p : Char → Bool) (xs ys : List Char)
    (h : ∀ c ∈ xs, p c = true) :
    (xs ++ ys).dropWhile p = ys.dropWhile p := by
  induction xs with
  | nil => rfl
  | cons c t ih =>
    rw [List.cons_append, List.dropWhile_cons, if_pos (h c (List.mem_cons_self ..))]
    exact ih (fun c' hc' => h c' (List.mem_cons_of_mem _ hc'))

theorem PD.takeWhile_head_false (p : Char → Bool) (l : List Char)
    (h : ∀ c, l.head? = some c → p c = false) : l.takeWhile p = [] := by
  cases l with
  | nil => rfl
  | cons c t => rw [List.takeWhile_cons, if_neg (by simp [h c rfl])]

theorem PD.dropWhile_head_false (p : Char → Bool) (l : List Char)
    (h : ∀ c, l.head? = some c → p c = false) : l.dropWhile p = l := by
  cases l with
  | nil => rfl
  | cons c t => rw [List.dropWhile_cons, if_neg (by simp [h c rfl])]

theorem PD.takeWhile_all (p : Char → Bool) (l : List Char)
    (h : ∀ c ∈ l, p c = true) : l.takeWhile p = l := by
  have := PD.takeWhile_append_all p l [] h
  simpa using this

theorem PD.dropWhile_all (p : Char → Bool) (l : List Char)
    (h : ∀ c ∈ l, p c = true) : l.dropWhile p = [] := by
  have := PD.dropWhile_append_all p l [] h
  simpa using this

/-- `str.strip()` leaves a string untouched when neither end is
whitespace. -/
theorem PD.pyStripList_id (l : List Char)
    (h1 : ∀ c, l.head? = some c → c.isWhitespace = false)
    (h2 : ∀ c, l.getLast? = some c → c.isWhitespace = false) :
    pyStripList l = l := by
  rw [pyStripList, PD.dropWhile_head_false _ l h1,
    PD.dropWhile_head_false _ l.reverse
      (fun c hc => h2 c (by rwa [List.head?_reverse] at hc)),
    List.reverse_reverse]

/-! ### Basic reductions of the pattern matcher -/

theorem PD.groupVal_nil (ds : List Char) : PD.groupVal ds [] = (PD.decNat ds : ℚ) := by
  rw [PD.groupVal]
  norm_num [PD.decNat]

theorem PD.fracSplit_no_dot (r : List Char)
    (h : ∀ c, r.head? = some c → ¬c = '.') : PD.fracSplit r = ([], r) := by
  cases r with
  | nil => rfl
  | cons c t =>
    rw [PD.fracSplit, if_neg (h c rfl)]

theorem PD.numUnitHere_nondigit (alts : List (List Char)) (lookS : Bool)
    (c : Char) (t : List Char) (h : c.isDigit = false) :
    PD.numUnitHere alts lookS (c :: t) = none := by
  rw [PD.numUnitHere, if_pos]
  rw [List.takeWhile_cons, if_neg (by simp [h])]
  rfl

/-- The matcher at a position starting with a nonempty digit run, after
which comes neither a digit nor a dot: the group is the digit run and the
match succeeds exactly when a unit alternative follows the whitespace. -/
theorem PD.numUnitHere_digits (alts : List (List Char)) (lookS : Bool)
    (ds rest : List Char) (hne : ds ≠ [])
    (hdig : ∀ c ∈ ds, c.isDigit = true)
    (hr : ∀ c, rest.head? = some c → (c.isDigit = false ∧ ¬c = '.')) :
    PD.numUnitHere alts lookS (ds ++ rest) =
      (if PD.altsMatch alts lookS (rest.dropWhile Char.isWhitespace) then
        some (PD.decNat ds : ℚ) else none) := by
  have htw : (ds ++ rest).takeWhile Char.isDigit = ds := by
    rw [PD.takeWhile_append_all _ ds rest hdig,
      PD.takeWhile_head_false _ rest (fun c hc => (hr c hc).1), List.append_nil]
  have hdw : (ds ++ rest).dropWhile Char.isDigit = rest := by
    rw [PD.dropWhile_append_all _ ds rest hdig,
      PD.dropWhile_head_false _ rest (fun c hc => (hr c hc).1)]
  rw [PD.numUnitHere, htw, hdw, PD.fracSplit_no_dot rest (fun c hc => (hr c hc).2)]
  rw [if_neg (by simp [List.isEmpty_iff, hne])]
  by_cases hm : PD.altsMatch alts lookS (rest.dropWhile Char.isWhitespace) = true
  · rw [if_pos hm, if_pos hm, PD.groupVal_nil]
  · rw [if_neg hm, if_neg hm]

theorem PD.reSearch_cons_none (alts : List (List Char)) (lookS : Bool)
    (c : Char) (t : List Char)
    (h : PD.numUnitHere alts lookS (c :: t) = none) :
    PD.reSearch alts lookS (c :: t) = PD.reSearch alts lookS t := by
  rw [PD.reSearch, h]

theorem PD.reSearch_cons_some (alts : List (List Char)) (lookS : Bool)
    (c : Char) (t : List Char) (v : ℚ)
    (h : PD.numUnitHere alts lookS (c :: t) = some v) :
    PD.reSearch alts lookS (c :: t) = some v := by
  rw [PD.reSearch, h]

/-- The search skips over any run of non-digit characters. -/
theorem PD.reSearch_skip_nondigit (alts : List (List Char)) (lookS : Bool)
    (xs rest : List Char) (h : ∀ c ∈ xs, c.isDigit = false) :
    PD.reSearch alts lookS (xs ++ rest) = PD.reSearch alts lookS rest := by
  induction xs with
  | nil => rfl
  | cons c t ih =>
    rw [List.cons_append,
      PD.reSearch_cons_none _ _ _ _
        (PD.numUnitHere_nondigit _ _ _ _ (h c (List.mem_cons_self ..))),
      ih (fun c' hc' => h c' (List.mem_cons_of_mem _ hc'))]

/-- The search skips over a digit run whose following unit test fails. -/
theorem PD.reSearch_skip_digits (alts : List (List Char)) (lookS : Bool)
    (ds rest : List Char) (hdig : ∀ c ∈ ds, c.isDigit = true)
    (hr : ∀ c, rest.head? = some c → (c.isDigit = false ∧ ¬c = '.'))
    (hfail : PD.altsMatch alts lookS (rest.dropWhile Char.isWhitespace) = false) :
    PD.reSearch alts lookS (ds ++ rest) = PD.reSearch alts lookS rest := by
  induction ds with
  | nil => rfl
  | cons c t ih =>
    rw [List.cons_append, PD.reSearch_cons_none, ih
      (fun c' hc' => hdig c' (List.mem_cons_of_mem _ hc'))]
    rw [show c :: (t ++ rest) = (c :: t) ++ rest from rfl,
      PD.numUnitHere_digits alts lookS (c :: t) rest (by simp) hdig hr, if_neg]
    simp [hfail]

/-- The search succeeds at the first position of a digit run whose
following unit test succeeds, returning the run's value. -/
theorem PD.reSearch_find (alts : List (List Char)) (lookS : Bool)
    (ds rest : List Char) (hne : ds ≠ [])
    (hdig : ∀ c ∈ ds, c.isDigit = true)
    (hr : ∀ c, rest.head? = some c → (c.isDigit = false ∧ ¬c = '.'))
    (hok : PD.altsMatch alts lookS (rest.dropWhile Char.isWhitespace) = true) :
    PD.reSearch alts lookS (ds ++ rest) = some (PD.decNat ds : ℚ) := by
  cases ds with
  | nil => exact absurd rfl hne
  | cons c t =>
    rw [List.cons_append, PD.reSearch_cons_some]
    rw [show c :: (t ++ rest) = (c :: t) ++ rest from rfl,
      PD.numUnitHere_digits alts lookS (c :: t) rest (by simp) hdig hr, if_pos hok]

/-- Heads that are a space satisfy the "no digit, no dot" side condition. -/
theorem PD.head_space_cond (l : List Char) (h : l.head? = some ' ') :
    ∀ c, l.head? = some c → (c.isDigit = false ∧ ¬c = '.') := by
  intro c hc
  rw [h, Option.some.injEq] at hc
  subst hc
  exact ⟨by decide, by decide⟩

/-- The empty rest satisfies the side condition vacuously. -/
theorem PD.head_nil_cond :
    ∀ c, ([] : List Char).head? = some c → (c.isDigit = false ∧ ¬c = '.') := by
  intro c hc
  cases hc

/-! ### The three searches on the composite string
`⟨N⟩ hours ⟨M⟩ minutes ⟨S⟩ seconds` -/

theorem PD.natDec_digits (n : ℕ) : ∀ c ∈ PD.natDec n, c.isDigit = true :=
  fun c hc => (PD.natDec_chars n c hc).1

theorem PD.search_hours_comp (N M S : ℕ) :
    PD.reSearch PD.hoursAlts false
      (PD.natDec N ++ (" hours ".data ++ (PD.natDec M ++ (" minutes ".data ++
        (PD.natDec S ++ " seconds".data))))) = some (N : ℚ) := by
  rw [PD.reSearch_find PD.hoursAlts false (PD.natDec N)
    (" hours ".data ++ (PD.natDec M ++ (" minutes ".data ++
      (PD.natDec S ++ " seconds".data))))
    (PD.natDec_ne_nil N) (PD.natDec_digits N)
    (PD.head_space_cond _ rfl) rfl, PD.decNat_natDec]

theorem PD.search_minutes_comp (N M S : ℕ) :
    PD.reSearch PD.minutesAlts true
      (PD.natDec N ++ (" hours ".data ++ (PD.natDec M ++ (" minutes ".data ++
        (PD.natDec S ++ " seconds".data))))) = some (M : ℚ) := by
  rw [PD.reSearch_skip_digits PD.minutesAlts true (PD.natDec N)
    (" hours ".data ++ (PD.natDec M ++ (" minutes ".data ++
      (PD.natDec S ++ " seconds".data))))
    (PD.natDec_digits N) (PD.head_space_cond _ rfl) rfl]
  rw [PD.reSearch_skip_nondigit PD.minutesAlts true (" hours ".data)
    (PD.natDec M ++ (" minutes ".data ++ (PD.natDec S ++ " seconds".data)))
    (by decide)]
  rw [PD.reSearch_find PD.minutesAlts true (PD.natDec M)
    (" minutes ".data ++ (PD.natDec S ++ " seconds".data))
    (PD.natDec_ne_nil M) (PD.natDec_digits M)
    (PD.head_space_cond _ rfl) rfl, PD.decNat_natDec]

theorem PD.search_seconds_comp (N M S : ℕ) :
    PD.reSearch PD.secondsAlts false
      (PD.natDec N ++ (" hours ".data ++ (PD.natDec M ++ (" minutes ".data ++
        (PD.natDec S ++ " seconds".data))))) = some (S : ℚ) := by
  rw [PD.reSearch_skip_digits PD.secondsAlts false (PD.natDec N)
    (" hours ".data ++ (PD.natDec M ++ (" minutes ".data ++
      (PD.natDec S ++ " seconds".data))))
    (PD.natDec_digits N) (PD.head_space_cond _ rfl) rfl]
  rw [PD.reSearch_skip_nondigit PD.secondsAlts false (" hours ".data)
    (PD.natDec M ++ (" minutes ".data ++ (PD.natDec S ++ " seconds".data)))
    (by decide)]
  rw [PD.reSearch_skip_digits PD.secondsAlts false (PD.natDec M)
    (" minutes ".data ++ (PD.natDec S ++ " seconds".data))
    (PD.natDec_digits M) (PD.head_space_cond _ rfl) rfl]
  rw [PD.reSearch_skip_nondigit PD.secondsAlts false (" minutes ".data)
    (PD.natDec S ++ " seconds".data) (by decide)]
  rw [PD.reSearch_find PD.secondsAlts false (PD.natDec S) (" seconds".data)
    (PD.natDec_ne_nil S) (PD.natDec_digits S)
    (PD.head_space_cond _ rfl) rfl, PD.decNat_natDec]

/-- On a bare digit string none of the unit searches matches. -/
theorem PD.search_bare (alts : List (List Char)) (lookS : Bool) (N : ℕ)
    (hnil : PD.altsMatch alts lookS [] = false) :
    PD.reSearch alts lookS (PD.natDec N) = none := by
  have h := PD.reSearch_skip_digits alts lookS (PD.natDec N) []
    (PD.natDec_digits N) PD.head_nil_cond (by simpa using hnil)
  rw [List.append_nil] at h
  rw [h]
  rfl

/-- `float()` of a bare decimal rendering. -/
theorem PD.pyFloat_natDec (N : ℕ) : PD.pyFloat (PD.natDec N) = some (N : ℚ) := by
  obtain ⟨c, t, hct⟩ : ∃ c t, PD.natDec N = c :: t := by
    cases h : PD.natDec N with
    | nil => exact absurd h (PD.natDec_ne_nil N)
    | cons c t => exact ⟨c, t, rfl⟩
  have hcfacts := PD.natDec_chars N c (hct ▸ List.mem_cons_self ..)
  have hsign : PD.pySign (PD.natDec N) = (1, PD.natDec N) := by
    rw [hct, PD.pySign, if_neg hcfacts.2.2.2.1, if_neg hcfacts.2.2.2.2.1]
  have htw : (PD.natDec N).takeWhile Char.isDigit = PD.natDec N :=
    PD.takeWhile_all _ _ (PD.natDec_digits N)
  have hdw : (PD.natDec N).dropWhile Char.isDigit = [] :=
    PD.dropWhile_all _ _ (PD.natDec_digits N)
  simp only [PD.pyFloat, hsign, htw, hdw]
  rw [if_neg (by simp [List.isEmpty_iff, PD.natDec_ne_nil N])]
  rw [PD.pyExp, PD.groupVal_nil, PD.decNat_natDec]
  norm_num

/-! ### `parse_duration` on the claim inputs -/

theorem PD.core_all_units (ds : List Char) (a b c : ℚ)
    (h1 : PD.reSearch PD.hoursAlts false ds = some a)
    (h2 : PD.reSearch PD.minutesAlts true ds = some b)
    (h3 : PD.reSearch PD.secondsAlts false ds = some c) :
    PD.parse_duration_core ds =
      if 0 < a * 3600 + b * 60 + c then some (a * 3600 + b * 60 + c) else none := by
  simp only [PD.parse_duration_core, h1, h2, h3, Option.isSome_some, Bool.true_or,
    if_true]
  exact if_congr (by simp) rfl rfl

theorem PD.core_bare (ds : List Char) (v : ℚ)
    (h1 : PD.reSearch PD.hoursAlts false ds = none)
    (h2 : PD.reSearch PD.minutesAlts true ds = none)
    (h3 : PD.reSearch PD.secondsAlts false ds = none)
    (hf : PD.pyFloat ds = some v) :
    PD.parse_duration_core ds = if 0 < v * 60 then some (v * 60) else none := by
  simp only [PD.parse_duration_core, h1, h2, h3, hf, Option.isSome_none,
    Bool.or_self, Bool.false_or, if_false]
  exact if_congr (by simp) rfl rfl

theorem PD.parse_duration_comp (N M S : ℕ) :
    PD.parse_duration (String.mk
      (PD.natDec N ++ (" hours ".data ++ (PD.natDec M ++ (" minutes ".data ++
        (PD.natDec S ++ " seconds".data)))))) =
      if 0 < 3600 * N + 60 * M + S then some ((3600 * N + 60 * M + S : ℕ) : ℚ)
      else none := by
  obtain ⟨c, t, hct⟩ : ∃ c t, PD.natDec N = c :: t := by
    cases h : PD.natDec N with
    | nil => exact absurd h (PD.natDec_ne_nil N)
    | cons c t => exact ⟨c, t, rfl⟩
  have hlower : (PD.natDec N ++ (" hours ".data ++ (PD.natDec M ++
      (" minutes ".data ++ (PD.natDec S ++ " seconds".data))))).map Char.toLower =
      PD.natDec N ++ (" hours ".data ++ (PD.natDec M ++ (" minutes ".data ++
        (PD.natDec S ++ " seconds".data)))) := by
    rw [List.map_append, List.map_append, List.map_append, List.map_append,
      List.map_append, PD.natDec_map_toLower, PD.natDec_map_toLower,
      PD.natDec_map_toLower, PD.map_toLower_id (" hours ".data) (by decide),
      PD.map_toLower_id (" minutes ".data) (by decide),
      PD.map_toLower_id (" seconds".data) (by decide)]
  have hlast : (PD.natDec N ++ (" hours ".data ++ (PD.natDec M ++
      (" minutes ".data ++ (PD.natDec S ++ " seconds".data))))).getLast? =
      some 's' := by
    rw [List.getLast?_append, List.getLast?_append, List.getLast?_append,
      List.getLast?_append, List.getLast?_append]
    rfl
  have hstrip : pyStripList (PD.natDec N ++ (" hours ".data ++ (PD.natDec M ++
      (" minutes ".data ++ (PD.natDec S ++ " seconds".data))))) =
      PD.natDec N ++ (" hours ".data ++ (PD.natDec M ++ (" minutes ".data ++
        (PD.natDec S ++ " seconds".data)))) := by
    refine PD.pyStripList_id _ ?_ ?_
    · intro c' hc'
      rw [hct, List.cons_append, List.head?_cons, Option.some.injEq] at hc'
      subst hc'
      exact (PD.natDec_chars N c (hct ▸ List.mem_cons_self ..)).2.2.1
    · intro c' hc'
      rw [hlast, Option.some.injEq] at hc'
      subst hc'
      decide
  show PD.parse_duration_core (pyStripList ((PD.natDec N ++ (" hours ".data ++
    (PD.natDec M ++ (" minutes ".data ++
      (PD.natDec S ++ " seconds".data))))).map Char.toLower)) = _
  rw [hlower, hstrip,
    PD.core_all_units _ (N : ℚ) (M : ℚ) (S : ℚ) (PD.search_hours_comp N M S)
      (PD.search_minutes_comp N M S) (PD.search_seconds_comp N M S)]
  have hval : ((N : ℚ) * 3600 + (M : ℚ) * 60 + (S : ℚ)) =
      ((3600 * N + 60 * M + S : ℕ) : ℚ) := by
    push_cast
    ring
  rw [hval]
  refine if_congr ?_ rfl rfl
  exact_mod_cast Iff.rfl

theorem PD.parse_duration_bare (N : ℕ) :
    PD.parse_duration (String.mk (PD.natDec N)) =
      if 0 < N then some ((N : ℚ) * 60) else none := by
  obtain ⟨c, t, hct⟩ : ∃ c t, PD.natDec N = c :: t := by
    cases h : PD.natDec N with
    | nil => exact absurd h (PD.natDec_ne_nil N)
    | cons c t => exact ⟨c, t, rfl⟩
  have hstrip : pyStripList (PD.natDec N) = PD.natDec N := by
    refine PD.pyStripList_id _ ?_ ?_
    · intro c' hc'
      rw [hct, List.head?_cons, Option.some.injEq] at hc'
      subst hc'
      exact (PD.natDec_chars N c (hct ▸ List.mem_cons_self ..)).2.2.1
    · intro c' hc'
      exact (PD.natDec_chars N c' (List.mem_of_mem_getLast? hc')).2.2.1
  show PD.parse_duration_core (pyStripList ((PD.natDec N).map Char.toLower)) = _
  rw [PD.natDec_map_toLower, hstrip,
    PD.core_bare _ (N : ℚ) (PD.search_bare PD.hoursAlts false N (by decide))
      (PD.search_bare PD.minutesAlts true N (by decide))
      (PD.search_bare PD.secondsAlts false N (by decide)) (PD.pyFloat_natDec N)]
  refine if_congr ?_ rfl rfl
  constructor
  · intro h
    have hq : (0 : ℚ) < (N : ℚ) := by nlinarith
    exact_mod_cast hq
  · intro h
    have hq : (0 : ℚ) < (N : ℚ) := by exact_mod_cast h
    nlinarith

theorem PD.if_pos_opt {P : Prop} [Decidable P] {x v : ℚ}
    (h : (if P then some x else none) = some v) : P ∧ x = v := by
  split at h
  · next hp =>
    exact ⟨hp, by injection h⟩
  · cases h

/-- A successful parse is always positive. -/
theorem PD.parse_duration_pos (s : String) (v : ℚ)
    (h : PD.parse_duration s = some v) : 0 < v := by
  rw [PD.parse_duration] at h
  simp only [PD.parse_duration_core] at h
  generalize PD.reSearch PD.hoursAlts false (pyStripList (s.data.map Char.toLower)) = hm at h
  generalize PD.reSearch PD.minutesAlts true (pyStripList (s.data.map Char.toLower)) = mm at h
  generalize PD.reSearch PD.secondsAlts false (pyStripList (s.data.map Char.toLower)) = sm at h
  generalize PD.pyFloat (pyStripList (s.data.map Char.toLower)) = fm at h
  cases hm <;> cases mm <;> cases sm <;> cases fm <;>
    simp only [Option.isSome_some, Option.isSome_none, Bool.or_self,
      Bool.false_or, Bool.true_or, Bool.or_true, if_true, if_false] at h <;>
    · obtain ⟨⟨-, hpos⟩, rfl⟩ := PD.if_pos_opt h
      exact hpos

/-- C5: (i) for all N, M, S, parsing the string `⟨N⟩ hours ⟨M⟩ minutes ⟨S⟩
seconds` yields `N*3600 + M*60 + S` seconds (rejected as `None` when that
total is zero); (ii) a bare number is read as that many minutes (`N * 60`
seconds, `None` when zero); (iii) every successful parse is strictly
positive — totals of zero or less are rejected; (iv) an input matching no
pattern, such as "soon", is rejected. -/
theorem C5_parse_duration :
    (∀ N M S : ℕ,
      PD.parse_duration (String.mk
        (PD.natDec N ++ (" hours ".data ++ (PD.natDec M ++ (" minutes ".data ++
          (PD.natDec S ++ " seconds".data)))))) =
        if 0 < 3600 * N + 60 * M + S then some ((3600 * N + 60 * M + S : ℕ) : ℚ)
        else none) ∧
    (∀ N : ℕ, PD.parse_duration (String.mk (PD.natDec N)) =
      if 0 < N then some ((N : ℚ) * 60) else none) ∧
    (∀ (s : String) (v : ℚ), PD.parse_duration s = some v → 0 < v) ∧
    PD.parse_duration "soon" = none :=
  ⟨PD.parse_duration_comp, PD.parse_duration_bare, PD.parse_duration_pos,
    by decide⟩

/-- Witness for C5: the bare number 5 parses to 300 seconds, and the
positivity clause applies to it. -/
theorem C5_parse_duration_witness :
    PD.parse_duration (String.mk (PD.natDec 5)) = some 300 ∧ (0 : ℚ) < 300 := by
  have h5 : PD.parse_duration (String.mk (PD.natDec 5)) = some 300 := by
    rw [C5_parse_duration.2.1 5, if_pos (by decide)]
    norm_num
  exact ⟨h5, C5_parse_duration.2.2.1 (String.mk (PD.natDec 5)) 300 h5⟩

end Rex
